import Mathlib

namespace ClaudeConfig

/-- A file-system path, abstracted as its list of components. -/
abbrev Path := List String

/-- Appending one component to a path, mirroring PathBuf.join in the source. -/
def Path.join (p : Path) (s : String) : Path := p ++ [s]

/-- Rendering a path as a string, mirroring to_string_lossy in the source. -/
def Path.render (p : Path) : String := String.intercalate "/" p

/-- Rust str::starts_with with a char pattern: true when the first
character of the string is the given character. -/
def startsWithChar (s : String) (c : Char) : Bool :=
  match s.data with
  | [] => false
  | a :: _ => a = c

/-- Rust str::to_lowercase, modelled character by character. -/
def strToLower (s : String) : String := ⟨s.data.map Char.toLower⟩

/-- Lexicographic less-or-equal on character lists, the order underlying
the Rust Ord instance for strings. -/
def charListLE : List Char → List Char → Bool
  | [], _ => true
  | _ :: _, [] => false
  | a :: as, b :: bs =>
    if a < b then true
    else if b < a then false
    else charListLE as bs

/-- Lexicographic less-or-equal on strings (Rust String cmp as a
boolean). -/
def strLE (a b : String) : Bool := charListLE a.data b.data

/-- A point-in-time file-system state: which paths exist, which are
directories, and the listing of each readable directory (readDir returns
none when the directory cannot be opened, mirroring an Err from
fs::read_dir; unreadable individual entries are simply absent from the
listing, mirroring the flatten over entry results). -/
structure FS where
  pathExists : Path → Bool
  isDir : Path → Bool
  readDir : Path → Option (List String)

/-- Source struct ConfigPathInfo. -/
structure ConfigPathInfo where
  path : String
  exists_ : Bool
  is_dir : Bool
deriving DecidableEq, Repr

/-- The make_info closure used by get_config_paths and list_projects. -/
def make_info (fs : FS) (pb : Path) : ConfigPathInfo :=
  { exists_ := fs.pathExists pb
    is_dir := fs.isDir pb
    path := pb.render }

/-- Source command get_path_info. -/
def get_path_info (fs : FS) (path : Path) : ConfigPathInfo :=
  { exists_ := fs.pathExists path
    is_dir := fs.isDir path
    path := path.render }

/-- Source command file_exists. -/
def file_exists (fs : FS) (path : Path) : Bool :=
  fs.pathExists path

/-- Source struct EnterprisePaths. -/
structure EnterprisePaths where
  claude_md : ConfigPathInfo
  managed_mcp : ConfigPathInfo
  managed_settings : ConfigPathInfo
deriving DecidableEq, Repr

/-- Source struct UserPaths. -/
structure UserPaths where
  claude_md : ConfigPathInfo
  claude_local_md : ConfigPathInfo
  settings : ConfigPathInfo
  settings_local : ConfigPathInfo
  agents : ConfigPathInfo
  commands : ConfigPathInfo
  mcp : ConfigPathInfo
  skills : ConfigPathInfo
deriving DecidableEq, Repr

/-- Source struct ConfigPaths. -/
structure ConfigPaths where
  enterprise : EnterprisePaths
  user : UserPaths
deriving DecidableEq, Repr

/-- The compile-time platform switch of the source, made a parameter so
all three branches are expressible. -/
inductive Platform where
  | windows
  | macos
  | other
deriving DecidableEq, Repr

/-- The per-platform enterprise base directory literals of the source. -/
def enterpriseBase : Platform → Path
  | .windows => ["C:\\Program Files\\ClaudeCode"]
  | .macos => ["/Library/Application Support/ClaudeCode"]
  | .other => ["/etc/claude-code"]

/-- Source command get_config_paths; the HOME and USERPROFILE environment
variables are passed in as optional values, mirroring
env::var(HOME).or_else(env::var(USERPROFILE)).unwrap_or(dot). -/
def get_config_paths (fs : FS) (platform : Platform)
    (homeVar userprofileVar : Option String) : ConfigPaths :=
  let home := (homeVar.orElse (fun _ => userprofileVar)).getD "."
  let home_path : Path := [home]
  let enterprise_base := enterpriseBase platform
  { enterprise :=
      { claude_md := make_info fs (enterprise_base.join "CLAUDE.md")
        managed_mcp := make_info fs (enterprise_base.join "managed-mcp.json")
        managed_settings := make_info fs (enterprise_base.join "managed-settings.json") }
    user :=
      { claude_md := make_info fs ((home_path.join ".claude").join "CLAUDE.md")
        claude_local_md := make_info fs ((home_path.join ".claude").join "CLAUDE.local.md")
        settings := make_info fs ((home_path.join ".claude").join "settings.json")
        settings_local := make_info fs ((home_path.join ".claude").join "settings.local.json")
        agents := make_info fs ((home_path.join ".claude").join "agents")
        commands := make_info fs ((home_path.join ".claude").join "commands")
        mcp := make_info fs (home_path.join ".claude.json")
        skills := make_info fs ((home_path.join ".claude").join "skills") } }

/-- Source struct ProjectConfigFiles. -/
structure ProjectConfigFiles where
  claude_md_root : ConfigPathInfo
  claude_md_dotclaude : ConfigPathInfo
  claude_local_md : ConfigPathInfo
  settings : ConfigPathInfo
  settings_local : ConfigPathInfo
  rules : ConfigPathInfo
  commands : ConfigPathInfo
  agents : ConfigPathInfo
  skills : ConfigPathInfo
  mcp : ConfigPathInfo
deriving DecidableEq, Repr

/-- Source struct ProjectInfo. -/
structure ProjectInfo where
  id : String
  path : String
  name : String
  has_claude_md : Bool
  config_files : ProjectConfigFiles
deriving DecidableEq, Repr

/-- The loop body of list_projects for one directory entry: returns the
ProjectInfo pushed for this entry, or none when the entry is not a
directory or does not qualify as a project. -/
def projectEntry (fs : FS) (base_dir : Path) (name : String) : Option ProjectInfo :=
  let path := base_dir.join name
  if fs.isDir path then
    let claude_md_root := path.join "CLAUDE.md"
    let claude_md_dotclaude := (path.join ".claude").join "CLAUDE.md"
    let has_claude_md := fs.pathExists claude_md_root || fs.pathExists claude_md_dotclaude
    let is_project := has_claude_md ||
                    fs.pathExists (path.join ".git") ||
                    fs.pathExists (path.join "package.json") ||
                    fs.pathExists (path.join "tsconfig.json") ||
                    fs.pathExists (path.join "pyproject.toml") ||
                    fs.pathExists (path.join "go.mod") ||
                    fs.pathExists (path.join "Cargo.toml")
    if is_project then
      let config_files : ProjectConfigFiles :=
        { claude_md_root := make_info fs claude_md_root
          claude_md_dotclaude := make_info fs claude_md_dotclaude
          claude_local_md := make_info fs (path.join "CLAUDE.local.md")
          settings := make_info fs ((path.join ".claude").join "settings.json")
          settings_local := make_info fs ((path.join ".claude").join "settings.local.json")
          rules := make_info fs ((path.join ".claude").join "rules")
          commands := make_info fs ((path.join ".claude").join "commands")
          agents := make_info fs ((path.join ".claude").join "agents")
          skills := make_info fs ((path.join ".claude").join "skills")
          mcp := make_info fs (path.join ".mcp.json") }
      some { id := name
             path := path.render
             name := name
             has_claude_md := has_claude_md
             config_files := config_files }
    else none
  else none

/-- Source command list_projects: scan the immediate entries of base_dir,
keeping the qualifying directories; an unopenable base directory yields
the empty list. -/
def list_projects (fs : FS) (base_dir : Path) : List ProjectInfo :=
  match fs.readDir base_dir with
  | none => []
  | some entries => entries.filterMap (projectEntry fs base_dir)

/-- Source struct SubdirClaudeMd. -/
structure SubdirClaudeMd where
  relative_path : String
  full_path : String
  exists_ : Bool
deriving DecidableEq, Repr

/-- The fixed exclusion set matched by the matches! arm in recurse. -/
def excludedDirs : List String :=
  ["node_modules", "target", "dist", "build", "__pycache__", "vendor", ".git"]

/-- path.strip_prefix(base).unwrap_or(path): drop the leading base
components when base is a prefix of the path, otherwise fall back to the
path itself. -/
def stripBase (base path : Path) : Path :=
  if base.isPrefixOf path then path.drop base.length else path

/-- The two file checks recurse performs on a subdirectory that survives
the filters: an entry for CLAUDE.md when present, then an entry for
CLAUDE.local.md when present (the latter with the literal suffix
appended to the relative path). -/
def childEntries (fs : FS) (base path : Path) : List SubdirClaudeMd :=
  let claude_md_path := path.join "CLAUDE.md"
  let first :=
    if fs.pathExists claude_md_path then
      let relative := stripBase base path
      [{ relative_path := relative.render
         full_path := claude_md_path.render
         exists_ := true : SubdirClaudeMd }]
    else []
  let claude_local_path := path.join "CLAUDE.local.md"
  let second :=
    if fs.pathExists claude_local_path then
      let relative := stripBase base path
      [{ relative_path := relative.render ++ " (local)"
         full_path := claude_local_path.render
         exists_ := true : SubdirClaudeMd }]
    else []
  first ++ second

/-- The inner fn recurse of discover_subdirectory_claude_md: prune when
depth exceeds max_depth, otherwise walk the readable entries of the
current directory, skipping hidden and excluded names, emitting the file
checks for each surviving subdirectory and then descending into it with
depth incremented. The result list is the sequence of pushes in source
order. -/
def recurse (fs : FS) (base current : Path) (depth max_depth : Nat) :
    List SubdirClaudeMd :=
  if hdm : depth > max_depth then []
  else
    match fs.readDir current with
    | none => []
    | some entries =>
      (entries.map (fun name =>
        let path := current.join name
        if startsWithChar name '.' then []
        else if name ∈ excludedDirs then []
        else if fs.isDir path then
          childEntries fs base path ++
            recurse fs base path (depth + 1) max_depth
        else [])).flatten
termination_by max_depth + 1 - depth
decreasing_by simp_wf; omega

/-- Fuel-indexed approximation of recurse, structurally recursive on the
number of nested calls still allowed; the lemma recurseFuel_eq_recurse
shows that fuel max_depth + 1 - depth already suffices on every file
system, which is the termination argument of the source recursion. -/
def recurseFuel (fs : FS) (base : Path) :
    Nat → Path → Nat → Nat → List SubdirClaudeMd
  | 0, _, _, _ => []
  | fuel + 1, current, depth, max_depth =>
    if depth > max_depth then []
    else
      match fs.readDir current with
      | none => []
      | some entries =>
        (entries.map (fun name =>
          let path := current.join name
          if startsWithChar name '.' then []
          else if name ∈ excludedDirs then []
          else if fs.isDir path then
            childEntries fs base path ++
              recurseFuel fs base fuel path (depth + 1) max_depth
          else [])).flatten

/-- Source command discover_subdirectory_claude_md. -/
def discover_subdirectory_claude_md (fs : FS) (project_path : Path)
    (max_depth : Option Nat) : List SubdirClaudeMd :=
  let base := project_path
  let maxd := max_depth.getD 5
  recurse fs base base 0 maxd

/-- Source struct DirectoryEntry. -/
structure DirectoryEntry where
  name : String
  path : String
  is_dir : Bool
deriving DecidableEq, Repr

/-- The comparator passed to sort_by in list_directory, as a boolean
less-or-equal: a directory sorts before a file, and within a group the
case-insensitive names are compared. -/
def entryLE (a b : DirectoryEntry) : Bool :=
  match a.is_dir, b.is_dir with
  | true, false => true
  | false, true => false
  | _, _ => strLE (strToLower a.name) (strToLower b.name)

/-- Source command list_directory: read the immediate entries, then sort
directories first and files second, alphabetically by case-insensitive
name within each group (a stable merge sort models the stable sort_by of
the source). An unopenable directory is an error. -/
def list_directory (fs : FS) (path : Path) : Except String (List DirectoryEntry) :=
  match fs.readDir path with
  | none => Except.error "io error"
  | some names =>
    let entries := names.map (fun name =>
      let entry_path := path.join name
      { name := name
        path := entry_path.render
        is_dir := fs.isDir entry_path : DirectoryEntry })
    Except.ok (entries.mergeSort entryLE)

/-- The scan a single directory level performs when no descent happens:
list the readable entries, keep the non-hidden non-excluded
subdirectories, and emit their file checks. Used to state what recurse
does at a directory sitting exactly at the depth bound. -/
def oneLevel (fs : FS) (base current : Path) : List SubdirClaudeMd :=
  match fs.readDir current with
  | none => []
  | some entries =>
    (entries.map (fun name =>
      let path := current.join name
      if startsWithChar name '.' then []
      else if name ∈ excludedDirs then []
      else if fs.isDir path then childEntries fs base path
      else [])).flatten

/-- The directories the recursive scan visits and file-checks, named by
their component chain below the starting directory: each component is a
listed entry that is not hidden, not excluded, and is a directory, and
every intermediate directory sits within the depth bound. -/
inductive Reaches (fs : FS) (max_depth : Nat) : Path → Nat → List String → Prop
  | child {current : Path} {depth : Nat} {entries : List String} {name : String} :
      depth ≤ max_depth →
      fs.readDir current = some entries →
      name ∈ entries →
      startsWithChar name '.' = false →
      name ∉ excludedDirs →
      fs.isDir (current.join name) = true →
      Reaches fs max_depth current depth [name]
  | step {current : Path} {depth : Nat} {entries : List String} {name : String}
      {comps : List String} :
      depth ≤ max_depth →
      fs.readDir current = some entries →
      name ∈ entries →
      startsWithChar name '.' = false →
      name ∉ excludedDirs →
      fs.isDir (current.join name) = true →
      Reaches fs max_depth (current.join name) (depth + 1) comps →
      Reaches fs max_depth current depth (name :: comps)

/-- The invariant claimed for every ConfigPathInfo record: a path
reported as a directory is reported as existing. -/
def infoOk (i : ConfigPathInfo) : Prop := i.is_dir = true → i.exists_ = true

/-- A concrete file-system snapshot used to instantiate the theorems:
a base directory b with a bare-Cargo.toml project, a plain directory and
a loose file; a project tree proj with src/billing holding both override
files and a node_modules subtree holding a nested one; and a directory d
with one subdirectory and two files for the sorting contract. -/
def fsW : FS where
  pathExists := fun p => p ∈ [
    ["b"], ["b", "proj1"], ["b", "proj1", "Cargo.toml"], ["b", "plain"],
    ["b", "noise.txt"],
    ["proj"], ["proj", "src"], ["proj", "src", "CLAUDE.md"],
    ["proj", "src", "billing"], ["proj", "src", "billing", "CLAUDE.md"],
    ["proj", "src", "billing", "CLAUDE.local.md"],
    ["proj", "node_modules"], ["proj", "node_modules", "x"],
    ["proj", "node_modules", "x", "CLAUDE.md"],
    ["d"], ["d", "b.txt"], ["d", "A"], ["d", "a.txt"]]
  isDir := fun p => p ∈ [
    ["b"], ["b", "proj1"], ["b", "plain"],
    ["proj"], ["proj", "src"], ["proj", "src", "billing"],
    ["proj", "node_modules"], ["proj", "node_modules", "x"],
    ["d"], ["d", "A"]]
  readDir := fun p =>
    if p = ["b"] then some ["proj1", "plain", "noise.txt"]
    else if p = ["proj"] then some ["src", "node_modules"]
    else if p = ["proj", "src"] then some ["billing"]
    else if p = ["proj", "src", "billing"] then some []
    else if p = ["proj", "node_modules"] then some ["x"]
    else if p = ["proj", "node_modules", "x"] then some []
    else if p = ["d"] then some ["b.txt", "A", "a.txt"]
    else none

/-- The single project record the snapshot fsW yields for base directory
b: the bare-Cargo.toml child proj1, with no instructions file. -/
def projW : ProjectInfo :=
  { id := "proj1"
    path := "b/proj1"
    name := "proj1"
    has_claude_md := false
    config_files :=
      { claude_md_root := { path := "b/proj1/CLAUDE.md", exists_ := false, is_dir := false }
        claude_md_dotclaude := { path := "b/proj1/.claude/CLAUDE.md", exists_ := false, is_dir := false }
        claude_local_md := { path := "b/proj1/CLAUDE.local.md", exists_ := false, is_dir := false }
        settings := { path := "b/proj1/.claude/settings.json", exists_ := false, is_dir := false }
        settings_local := { path := "b/proj1/.claude/settings.local.json", exists_ := false, is_dir := false }
        rules := { path := "b/proj1/.claude/rules", exists_ := false, is_dir := false }
        commands := { path := "b/proj1/.claude/commands", exists_ := false, is_dir := false }
        agents := { path := "b/proj1/.claude/agents", exists_ := false, is_dir := false }
        skills := { path := "b/proj1/.claude/skills", exists_ := false, is_dir := false }
        mcp := { path := "b/proj1/.mcp.json", exists_ := false, is_dir := false } } }

theorem recurseFuel_eq_recurse (fs : FS) (base : Path) :
    ∀ (fuel : Nat) (current : Path) (depth max_depth : Nat),
      max_depth + 1 - depth ≤ fuel →
      recurseFuel fs base fuel current depth max_depth =
        recurse fs base current depth max_depth := by
  intro fuel
  induction fuel with
  | zero =>
    intro current depth max_depth hle
    have hdm : depth > max_depth := by omega
    rw [recurse]
    simp [recurseFuel, hdm]
  | succ fuel ih =>
    intro current depth max_depth hle
    rw [recurse, recurseFuel]
    by_cases hdm : depth > max_depth
    · simp [hdm]
    · simp only [hdm, if_false, ite_false]
      cases fs.readDir current with
      | none => rfl
      | some entries =>
        simp only []
        congr 1
        apply List.map_congr_left
        intro name _
        have hrec : recurseFuel fs base fuel (current.join name) (depth + 1) max_depth =
            recurse fs base (current.join name) (depth + 1) max_depth := by
          apply ih
          omega
        simp only [hrec]

theorem charListLE_total (as bs : List Char) :
    charListLE as bs = true ∨ charListLE bs as = true := by
  induction as generalizing bs with
  | nil => left; simp [charListLE]
  | cons a as ih =>
    cases bs with
    | nil => right; simp [charListLE]
    | cons b bs =>
      rcases lt_trichotomy a b with h | h | h
      · left; simp [charListLE, h]
      · subst h
        rcases ih bs with h' | h'
        · left; simp [charListLE, lt_irrefl, h']
        · right; simp [charListLE, lt_irrefl, h']
      · right; simp [charListLE, h]

theorem charListLE_trans (as : List Char) :
    ∀ bs cs, charListLE as bs = true → charListLE bs cs = true →
      charListLE as cs = true := by
  induction as with
  | nil => intro bs cs _ _; simp [charListLE]
  | cons a as ih =>
    intro bs cs h1 h2
    cases bs with
    | nil => simp [charListLE] at h1
    | cons b bs =>
      cases cs with
      | nil => simp [charListLE] at h2
      | cons c cs =>
        simp only [charListLE] at h1 h2 ⊢
        by_cases hab : a < b
        · simp only [hab, if_true] at h1
          by_cases hbc : b < c
          · simp [lt_trans hab hbc]
          · by_cases hcb : c < b
            · simp [hbc, hcb] at h2
            · have hbc' : b = c := le_antisymm (not_lt.mp hcb) (not_lt.mp hbc)
              subst hbc'
              simp [hab]
        · by_cases hba : b < a
          · simp [hab, hba] at h1
          · have hab' : a = b := le_antisymm (not_lt.mp hba) (not_lt.mp hab)
            subst hab'
            simp only [hab, if_false, lt_irrefl, ite_false] at h1 ⊢
            by_cases hac : a < c
            · simp [hac]
            · by_cases hca : c < a
              · simp [hac, hca] at h2
              · simp only [hac, hca, if_false] at h2 ⊢
                exact ih bs cs h1 h2

theorem entryLE_total (a b : DirectoryEntry) : entryLE a b || entryLE b a := by
  cases ha : a.is_dir <;> cases hb : b.is_dir
  · simp only [entryLE, ha, hb, strLE, Bool.or_eq_true]
    exact charListLE_total _ _
  · simp [entryLE, ha, hb]
  · simp [entryLE, ha, hb]
  · simp only [entryLE, ha, hb, strLE, Bool.or_eq_true]
    exact charListLE_total _ _

theorem entryLE_trans (a b c : DirectoryEntry) :
    entryLE a b → entryLE b c → entryLE a c := by
  intro h1 h2
  cases ha : a.is_dir <;> cases hb : b.is_dir <;> cases hc : c.is_dir <;>
    simp only [entryLE, ha, hb, hc, strLE] at h1 h2 ⊢ <;>
    first
      | rfl
      | exact h1
      | exact h2
      | exact charListLE_trans _ _ _ h1 h2
      | simp at h1
      | simp at h2

theorem isPrefixOf_append_self (l₁ l₂ : List String) :
    l₁.isPrefixOf (l₁ ++ l₂) = true := by
  induction l₁ with
  | nil => simp [List.isPrefixOf]
  | cons a as ih => simp [List.isPrefixOf, ih]

theorem stripBase_append (base comps : Path) :
    stripBase base (base ++ comps) = comps := by
  simp [stripBase, isPrefixOf_append_self, List.drop_left]

theorem childEntries_both (fs : FS) (base p : Path)
    (hc : fs.pathExists (p.join "CLAUDE.md") = true)
    (hl : fs.pathExists (p.join "CLAUDE.local.md") = true) :
    childEntries fs base p =
      [{ relative_path := (stripBase base p).render
         full_path := (p.join "CLAUDE.md").render
         exists_ := true },
       { relative_path := (stripBase base p).render ++ " (local)"
         full_path := (p.join "CLAUDE.local.md").render
         exists_ := true }] := by
  simp [childEntries, hc, hl]

theorem childEntries_full_path (fs : FS) (base p : Path)
    (r : SubdirClaudeMd) (hr : r ∈ childEntries fs base p) :
    r.full_path = (p.join "CLAUDE.md").render ∨
      r.full_path = (p.join "CLAUDE.local.md").render := by
  by_cases h1 : fs.pathExists (p.join "CLAUDE.md") = true
  · by_cases h2 : fs.pathExists (p.join "CLAUDE.local.md") = true
    · simp [childEntries, h1, h2] at hr
      rcases hr with h | h <;> simp [h]
    · simp [childEntries, h1, h2] at hr
      simp [hr]
  · by_cases h2 : fs.pathExists (p.join "CLAUDE.local.md") = true
    · simp [childEntries, h1, h2] at hr
      simp [hr]
    · simp [childEntries, h1, h2] at hr

theorem recurse_prune (fs : FS) (base current : Path) (depth max_depth : Nat)
    (hdm : max_depth < depth) :
    recurse fs base current depth max_depth = [] := by
  rw [recurse]
  simp [hdm]

theorem recurse_unfold (fs : FS) (base current : Path) (depth max_depth : Nat)
    (entries : List String) (hdm : depth ≤ max_depth)
    (hrd : fs.readDir current = some entries) :
    recurse fs base current depth max_depth =
      (entries.map (fun name =>
        let path := current.join name
        if startsWithChar name '.' then []
        else if name ∈ excludedDirs then []
        else if fs.isDir path then
          childEntries fs base path ++
            recurse fs base path (depth + 1) max_depth
        else [])).flatten := by
  rw [recurse]
  simp [Nat.not_lt.mpr hdm, hrd]

theorem reaches_ne_nil {fs : FS} {max_depth : Nat} {current : Path}
    {depth : Nat} {comps : List String}
    (h : Reaches fs max_depth current depth comps) : comps ≠ [] := by
  cases h <;> simp

theorem reaches_good {fs : FS} {max_depth : Nat} {current : Path}
    {depth : Nat} {comps : List String}
    (h : Reaches fs max_depth current depth comps) :
    ∀ c ∈ comps, startsWithChar c '.' = false ∧ c ∉ excludedDirs := by
  induction h with
  | child _ _ _ hdot hexc _ =>
    intro c hc
    simp at hc
    subst hc
    exact ⟨hdot, hexc⟩
  | step _ _ _ hdot hexc _ _ ih =>
    intro c hc
    rcases List.mem_cons.mp hc with h | h
    · subst h; exact ⟨hdot, hexc⟩
    · exact ih c h

theorem flatten_block {α β : Type} (f : β → List α) (l₁ l₂ : List β) (x : β)
    (a b blk : List α) (hfx : f x = a ++ blk ++ b) :
    ∃ pre post, (List.map f (l₁ ++ x :: l₂)).flatten = pre ++ blk ++ post :=
  ⟨(l₁.map f).flatten ++ a, b ++ (l₂.map f).flatten, by
    simp [hfx, List.append_assoc]⟩

theorem reaches_block {fs : FS} {max_depth : Nat} {current : Path}
    {depth : Nat} {comps : List String} (base : Path)
    (h : Reaches fs max_depth current depth comps) :
    ∃ pre post, recurse fs base current depth max_depth =
      pre ++ childEntries fs base (current ++ comps) ++ post := by
  induction h with
  | @child current depth entries name hdm hrd hmem hdot hexc hdir =>
    obtain ⟨l₁, l₂, hsplit⟩ := List.append_of_mem hmem
    rw [recurse_unfold fs base current depth max_depth entries hdm hrd, hsplit]
    apply flatten_block _ l₁ l₂ name []
      (recurse fs base (current.join name) (depth + 1) max_depth)
    simp only [hdot, hexc, hdir, if_false, ite_false, if_true, ite_true,
      Bool.false_eq_true, not_false_eq_true, List.nil_append]
    simp [Path.join]
  | @step current depth entries name comps hdm hrd hmem hdot hexc hdir _ ih =>
    obtain ⟨pre', post', hrec⟩ := ih
    obtain ⟨l₁, l₂, hsplit⟩ := List.append_of_mem hmem
    rw [recurse_unfold fs base current depth max_depth entries hdm hrd, hsplit]
    apply flatten_block _ l₁ l₂ name
      (childEntries fs base (current.join name) ++ pre') post'
    simp only [hdot, hexc, hdir, if_false, ite_false, if_true, ite_true,
      Bool.false_eq_true, not_false_eq_true, hrec]
    have harr : (current.join name) ++ comps = current ++ (name :: comps) := by
      simp [Path.join]
    rw [harr]
    simp [List.append_assoc]

theorem recurseFuel_mem {fs : FS} {base : Path} {max_depth : Nat}
    {r : SubdirClaudeMd} :
    ∀ (fuel : Nat) (current : Path) (depth : Nat),
      r ∈ recurseFuel fs base fuel current depth max_depth →
      ∃ comps, Reaches fs max_depth current depth comps ∧
        r ∈ childEntries fs base (current ++ comps) := by
  intro fuel
  induction fuel with
  | zero => intro current depth hr; simp [recurseFuel] at hr
  | succ fuel ih =>
    intro current depth hr
    rw [recurseFuel] at hr
    by_cases hdm : depth > max_depth
    · simp [hdm] at hr
    · simp only [hdm, if_false, ite_false] at hr
      cases hrd : fs.readDir current with
      | none => rw [hrd] at hr; simp at hr
      | some entries =>
        rw [hrd] at hr
        simp only [List.mem_flatten, List.mem_map] at hr
        obtain ⟨l, ⟨name, hname, hl⟩, hrl⟩ := hr
        subst hl
        by_cases hdot : startsWithChar name '.'
        · simp [hdot] at hrl
        · by_cases hexc : name ∈ excludedDirs
          · simp [hdot, hexc] at hrl
          · by_cases hdir : fs.isDir (current.join name) = true
            · simp only [hdot, hexc, hdir, if_false, ite_false, if_true,
                ite_true, Bool.false_eq_true, not_false_eq_true,
                List.mem_append] at hrl
              rcases hrl with hrl | hrl
              · refine ⟨[name], ?_, ?_⟩
                · exact Reaches.child (by omega) hrd hname
                    (by simpa using hdot) hexc hdir
                · simpa [Path.join] using hrl
              · obtain ⟨comps, hre, hmem⟩ := ih (current.join name) (depth + 1) hrl
                refine ⟨name :: comps, ?_, ?_⟩
                · exact Reaches.step (by omega) hrd hname
                    (by simpa using hdot) hexc hdir hre
                · have harr : (current.join name) ++ comps =
                      current ++ (name :: comps) := by simp [Path.join]
                  rwa [harr] at hmem
            · simp [hdot, hexc, hdir] at hrl

theorem recurse_mem {fs : FS} {base : Path} {max_depth : Nat}
    {r : SubdirClaudeMd} {current : Path} {depth : Nat}
    (hr : r ∈ recurse fs base current depth max_depth) :
    ∃ comps, Reaches fs max_depth current depth comps ∧
      r ∈ childEntries fs base (current ++ comps) := by
  rw [← recurseFuel_eq_recurse fs base (max_depth + 1 - depth) current depth
    max_depth (le_refl _)] at hr
  exact recurseFuel_mem (max_depth + 1 - depth) current depth hr

theorem projectEntry_none_of_not_dir {fs : FS} {base : Path} {name : String}
    (hdir : ¬ fs.isDir (base.join name) = true) :
    projectEntry fs base name = none := by
  simp [projectEntry, hdir]

theorem projectEntry_some_shape {fs : FS} {base : Path} {name : String}
    {p : ProjectInfo} (h : projectEntry fs base name = some p) :
    p.name = name ∧
    p.path = (base.join name).render ∧
    p.has_claude_md = (fs.pathExists ((base.join name).join "CLAUDE.md") ||
      fs.pathExists (((base.join name).join ".claude").join "CLAUDE.md")) ∧
    fs.isDir (base.join name) = true ∧
    (fs.pathExists ((base.join name).join "CLAUDE.md") ||
     fs.pathExists (((base.join name).join ".claude").join "CLAUDE.md") ||
     fs.pathExists ((base.join name).join ".git") ||
     fs.pathExists ((base.join name).join "package.json") ||
     fs.pathExists ((base.join name).join "tsconfig.json") ||
     fs.pathExists ((base.join name).join "pyproject.toml") ||
     fs.pathExists ((base.join name).join "go.mod") ||
     fs.pathExists ((base.join name).join "Cargo.toml")) = true ∧
    p.config_files =
      { claude_md_root := make_info fs ((base.join name).join "CLAUDE.md")
        claude_md_dotclaude := make_info fs (((base.join name).join ".claude").join "CLAUDE.md")
        claude_local_md := make_info fs ((base.join name).join "CLAUDE.local.md")
        settings := make_info fs (((base.join name).join ".claude").join "settings.json")
        settings_local := make_info fs (((base.join name).join ".claude").join "settings.local.json")
        rules := make_info fs (((base.join name).join ".claude").join "rules")
        commands := make_info fs (((base.join name).join ".claude").join "commands")
        agents := make_info fs (((base.join name).join ".claude").join "agents")
        skills := make_info fs (((base.join name).join ".claude").join "skills")
        mcp := make_info fs ((base.join name).join ".mcp.json") } := by
  by_cases hdir : fs.isDir (base.join name) = true
  · by_cases hq : (fs.pathExists ((base.join name).join "CLAUDE.md") ||
        fs.pathExists (((base.join name).join ".claude").join "CLAUDE.md") ||
        fs.pathExists ((base.join name).join ".git") ||
        fs.pathExists ((base.join name).join "package.json") ||
        fs.pathExists ((base.join name).join "tsconfig.json") ||
        fs.pathExists ((base.join name).join "pyproject.toml") ||
        fs.pathExists ((base.join name).join "go.mod") ||
        fs.pathExists ((base.join name).join "Cargo.toml")) = true
    · simp only [projectEntry, hdir, hq, if_true, ite_true,
        Option.some.injEq] at h
      subst h
      exact ⟨rfl, rfl, rfl, hdir, hq, rfl⟩
    · simp [projectEntry, hdir, hq] at h
  · simp [projectEntry, hdir] at h

theorem projectEntry_some_of_qual {fs : FS} {base : Path} {name : String}
    (hdir : fs.isDir (base.join name) = true)
    (hq : (fs.pathExists ((base.join name).join "CLAUDE.md") ||
     fs.pathExists (((base.join name).join ".claude").join "CLAUDE.md") ||
     fs.pathExists ((base.join name).join ".git") ||
     fs.pathExists ((base.join name).join "package.json") ||
     fs.pathExists ((base.join name).join "tsconfig.json") ||
     fs.pathExists ((base.join name).join "pyproject.toml") ||
     fs.pathExists ((base.join name).join "go.mod") ||
     fs.pathExists ((base.join name).join "Cargo.toml")) = true) :
    ∃ p, projectEntry fs base name = some p ∧ p.name = name := by
  simp only [projectEntry, hdir, hq, if_true, ite_true]
  exact ⟨_, rfl, rfl⟩

theorem entryLE_imp {a b : DirectoryEntry} (h : entryLE a b = true) :
    (a.is_dir = true ∧ b.is_dir = false) ∨
      (a.is_dir = b.is_dir ∧
        strLE (strToLower a.name) (strToLower b.name) = true) := by
  cases ha : a.is_dir <;> cases hb : b.is_dir <;>
    simp only [entryLE, ha, hb] at h <;>
    simp_all

theorem make_info_ok {fs : FS}
    (hfs : ∀ p : Path, fs.isDir p = true → fs.pathExists p = true)
    (pb : Path) : infoOk (make_info fs pb) :=
  fun hd => hfs pb hd

/-- C1: an immediate child directory of the base directory is included by
list_projects as a project if and only if a CLAUDE.md exists at its root
or inside its .claude subdirectory, or .git exists at its root, or one of
the manifest files package.json, tsconfig.json, pyproject.toml, go.mod,
Cargo.toml exists at its root; and the has_claude_md field of the
included project records whether one of the two CLAUDE.md locations
exists, so a bare Cargo.toml directory is included with has_claude_md
false. -/
theorem claim1_project_qualification (fs : FS) (base_dir : Path)
    (entries : List String) (name : String)
    (hrd : fs.readDir base_dir = some entries)
    (hmem : name ∈ entries)
    (hdir : fs.isDir (base_dir.join name) = true) :
    ((∃ p ∈ list_projects fs base_dir, p.name = name) ↔
      (fs.pathExists ((base_dir.join name).join "CLAUDE.md") ||
       fs.pathExists (((base_dir.join name).join ".claude").join "CLAUDE.md") ||
       fs.pathExists ((base_dir.join name).join ".git") ||
       fs.pathExists ((base_dir.join name).join "package.json") ||
       fs.pathExists ((base_dir.join name).join "tsconfig.json") ||
       fs.pathExists ((base_dir.join name).join "pyproject.toml") ||
       fs.pathExists ((base_dir.join name).join "go.mod") ||
       fs.pathExists ((base_dir.join name).join "Cargo.toml")) = true) ∧
    (∀ p ∈ list_projects fs base_dir, p.name = name →
      p.has_claude_md = (fs.pathExists ((base_dir.join name).join "CLAUDE.md") ||
        fs.pathExists (((base_dir.join name).join ".claude").join "CLAUDE.md"))) := by
  constructor
  · constructor
    · rintro ⟨p, hp, hpname⟩
      simp only [list_projects, hrd] at hp
      obtain ⟨a, ha, hfa⟩ := List.mem_filterMap.mp hp
      obtain ⟨hname, -, -, -, hq, -⟩ := projectEntry_some_shape hfa
      rw [hname] at hpname
      subst hpname
      exact hq
    · intro hq
      obtain ⟨p, hsome, hpname⟩ := projectEntry_some_of_qual hdir hq
      refine ⟨p, ?_, hpname⟩
      simp only [list_projects, hrd]
      exact List.mem_filterMap.mpr ⟨name, hmem, hsome⟩
  · intro p hp hpname
    simp only [list_projects, hrd] at hp
    obtain ⟨a, ha, hfa⟩ := List.mem_filterMap.mp hp
    obtain ⟨hname, -, hmd, -, -, -⟩ := projectEntry_some_shape hfa
    rw [hname] at hpname
    subst hpname
    exact hmd

/-- C2: with max_depth 0 the scan reports the override files found in the
immediate child directories of the root and descends no further; in
general a call at depth greater than max_depth returns nothing, while a
directory sitting at depth exactly max_depth is still scanned one level
(its children are file-checked, with no further descent). -/
theorem claim2_depth_boundary (fs : FS) (base : Path) :
    (∀ (current : Path) (depth max_depth : Nat), max_depth < depth →
      recurse fs base current depth max_depth = []) ∧
    (∀ (current : Path) (max_depth : Nat),
      recurse fs base current max_depth max_depth = oneLevel fs base current) ∧
    discover_subdirectory_claude_md fs base (some 0) = oneLevel fs base base := by
  have hprune : ∀ (current : Path) (depth max_depth : Nat),
      max_depth < depth → recurse fs base current depth max_depth = [] :=
    fun c d m h => recurse_prune fs base c d m h
  have hexact : ∀ (current : Path) (max_depth : Nat),
      recurse fs base current max_depth max_depth = oneLevel fs base current := by
    intro current max_depth
    cases hrd : fs.readDir current with
    | none =>
      rw [recurse, oneLevel]
      simp [hrd]
    | some entries =>
      rw [recurse_unfold fs base current max_depth max_depth entries
        (le_refl _) hrd, oneLevel, hrd]
      congr 1
      apply List.map_congr_left
      intro name _
      simp only [hprune (current.join name) (max_depth + 1) max_depth
        (by omega), List.append_nil]
  exact ⟨hprune, hexact, by
    simp only [discover_subdirectory_claude_md, Option.getD_some]
    exact hexact base 0⟩

/-- C3: every entry the scan emits names a CLAUDE.md or CLAUDE.local.md
sitting under a non-empty chain of component names below the project
root in which no component starts with a dot and no component belongs to
the exclusion set, so nothing under a hidden or excluded directory is
ever reported at any depth. -/
theorem claim3_excluded_never_reported (fs : FS) (project_path : Path)
    (max_depth : Option Nat) (r : SubdirClaudeMd)
    (hr : r ∈ discover_subdirectory_claude_md fs project_path max_depth) :
    ∃ comps : List String, comps ≠ [] ∧
      (∀ c ∈ comps, startsWithChar c '.' = false ∧ c ∉ excludedDirs) ∧
      (r.full_path = ((project_path ++ comps).join "CLAUDE.md").render ∨
       r.full_path = ((project_path ++ comps).join "CLAUDE.local.md").render) := by
  simp only [discover_subdirectory_claude_md] at hr
  obtain ⟨comps, hre, hmem⟩ := recurse_mem hr
  exact ⟨comps, reaches_ne_nil hre, reaches_good hre,
    childEntries_full_path _ _ _ _ hmem⟩

/-- C4: the has_claude_md field of every project returned by
list_projects is true exactly when a CLAUDE.md exists at the project
root or inside the .claude subdirectory of the project. -/
theorem claim4_has_claude_md (fs : FS) (base_dir : Path) (p : ProjectInfo)
    (hp : p ∈ list_projects fs base_dir) :
    ∃ (entries : List String) (name : String),
      fs.readDir base_dir = some entries ∧ name ∈ entries ∧
      p.name = name ∧ p.path = (base_dir.join name).render ∧
      p.has_claude_md = (fs.pathExists ((base_dir.join name).join "CLAUDE.md") ||
        fs.pathExists (((base_dir.join name).join ".claude").join "CLAUDE.md")) := by
  cases hrd : fs.readDir base_dir with
  | none => simp [list_projects, hrd] at hp
  | some entries =>
    simp only [list_projects, hrd] at hp
    obtain ⟨a, ha, hfa⟩ := List.mem_filterMap.mp hp
    obtain ⟨hname, hpath, hmd, -, -, -⟩ := projectEntry_some_shape hfa
    exact ⟨entries, a, rfl, ha, hname, hpath, hmd⟩

/-- C5: when the recursive scan visits a directory, given by its chain of
components below the project root, and that directory contains both
CLAUDE.md and CLAUDE.local.md, the scan emits an entry whose
relative_path renders the chain and whose full_path points at that
CLAUDE.md, and also an entry whose relative_path carries the literal
suffix and whose full_path points at that CLAUDE.local.md. -/
theorem claim5_both_entries (fs : FS) (project_path : Path)
    (max_depth : Option Nat) (comps : List String)
    (hreach : Reaches fs (max_depth.getD 5) project_path 0 comps)
    (hc : fs.pathExists ((project_path ++ comps).join "CLAUDE.md") = true)
    (hl : fs.pathExists ((project_path ++ comps).join "CLAUDE.local.md") = true) :
    ({ relative_path := Path.render comps
       full_path := ((project_path ++ comps).join "CLAUDE.md").render
       exists_ := true : SubdirClaudeMd } ∈
        discover_subdirectory_claude_md fs project_path max_depth) ∧
    ({ relative_path := Path.render comps ++ " (local)"
       full_path := ((project_path ++ comps).join "CLAUDE.local.md").render
       exists_ := true : SubdirClaudeMd } ∈
        discover_subdirectory_claude_md fs project_path max_depth) := by
  obtain ⟨pre, post, heq⟩ := reaches_block project_path hreach
  have hblock := childEntries_both fs project_path (project_path ++ comps) hc hl
  rw [stripBase_append] at hblock
  simp only [discover_subdirectory_claude_md, heq, hblock]
  constructor <;> simp

/-- C6: when the base directory cannot be opened for listing,
list_projects returns the empty sequence instead of failing. -/
theorem claim6_unreadable_base_empty (fs : FS) (base_dir : Path)
    (h : fs.readDir base_dir = none) : list_projects fs base_dir = [] := by
  simp [list_projects, h]

/-- C7: on a readable directory list_directory succeeds with a
permutation of the entries in which every directory precedes every file
and, within the directory group and within the file group, any two
entries in order compare alphabetically by case-insensitive name. -/
theorem claim7_sort_contract (fs : FS) (path : Path) (names : List String)
    (hrd : fs.readDir path = some names) :
    ∃ l, list_directory fs path = Except.ok l ∧
      l.Pairwise (fun a b =>
        (a.is_dir = true ∧ b.is_dir = false) ∨
        (a.is_dir = b.is_dir ∧
          strLE (strToLower a.name) (strToLower b.name) = true)) ∧
      l.Perm (names.map (fun name =>
        { name := name
          path := (path.join name).render
          is_dir := fs.isDir (path.join name) : DirectoryEntry })) := by
  refine ⟨(names.map (fun name =>
    { name := name
      path := (path.join name).render
      is_dir := fs.isDir (path.join name) : DirectoryEntry })).mergeSort entryLE,
    ?_, ?_, ?_⟩
  · simp only [list_directory, hrd]
  · exact ((List.sorted_mergeSort
      (fun a b c => entryLE_trans a b c)
      (fun a b => entryLE_total a b) _).imp (fun h => entryLE_imp h))
  · exact List.mergeSort_perm _ entryLE

/-- C8: the scan terminates within the depth bound on every file system:
a call at depth greater than max_depth returns at once, and unfolding
the recursion max_depth + 1 times (any fuel at least that large gives
the same value) fully computes discover_subdirectory_claude_md. -/
theorem claim8_termination (fs : FS) (project_path : Path) (max_depth : Nat) :
    (∀ (current : Path) (depth : Nat), max_depth < depth →
      recurse fs project_path current depth max_depth = []) ∧
    (∀ fuel : Nat, max_depth + 1 ≤ fuel →
      recurseFuel fs project_path fuel project_path 0 max_depth =
        discover_subdirectory_claude_md fs project_path (some max_depth)) := by
  constructor
  · exact fun c d h => recurse_prune fs project_path c d max_depth h
  · intro fuel hf
    simp only [discover_subdirectory_claude_md, Option.getD_some]
    exact recurseFuel_eq_recurse fs project_path fuel project_path 0 max_depth
      (by omega)

/-- C9: on a file-system snapshot in which a directory always exists,
every ConfigPathInfo produced by get_path_info, get_config_paths or
list_projects satisfies the invariant that is_dir implies exists. -/
theorem claim9_is_dir_implies_exists (fs : FS)
    (hfs : ∀ p : Path, fs.isDir p = true → fs.pathExists p = true) :
    (∀ path : Path, infoOk (get_path_info fs path)) ∧
    (∀ (platform : Platform) (homeVar userprofileVar : Option String),
      infoOk (get_config_paths fs platform homeVar userprofileVar).enterprise.claude_md ∧
      infoOk (get_config_paths fs platform homeVar userprofileVar).enterprise.managed_mcp ∧
      infoOk (get_config_paths fs platform homeVar userprofileVar).enterprise.managed_settings ∧
      infoOk (get_config_paths fs platform homeVar userprofileVar).user.claude_md ∧
      infoOk (get_config_paths fs platform homeVar userprofileVar).user.claude_local_md ∧
      infoOk (get_config_paths fs platform homeVar userprofileVar).user.settings ∧
      infoOk (get_config_paths fs platform homeVar userprofileVar).user.settings_local ∧
      infoOk (get_config_paths fs platform homeVar userprofileVar).user.agents ∧
      infoOk (get_config_paths fs platform homeVar userprofileVar).user.commands ∧
      infoOk (get_config_paths fs platform homeVar userprofileVar).user.mcp ∧
      infoOk (get_config_paths fs platform homeVar userprofileVar).user.skills) ∧
    (∀ (base_dir : Path) (p : ProjectInfo), p ∈ list_projects fs base_dir →
      infoOk p.config_files.claude_md_root ∧
      infoOk p.config_files.claude_md_dotclaude ∧
      infoOk p.config_files.claude_local_md ∧
      infoOk p.config_files.settings ∧
      infoOk p.config_files.settings_local ∧
      infoOk p.config_files.rules ∧
      infoOk p.config_files.commands ∧
      infoOk p.config_files.agents ∧
      infoOk p.config_files.skills ∧
      infoOk p.config_files.mcp) := by
  refine ⟨?_, ?_, ?_⟩
  · exact fun path hd => hfs path hd
  · intro platform homeVar userprofileVar
    exact ⟨make_info_ok hfs _, make_info_ok hfs _, make_info_ok hfs _,
      make_info_ok hfs _, make_info_ok hfs _, make_info_ok hfs _,
      make_info_ok hfs _, make_info_ok hfs _, make_info_ok hfs _,
      make_info_ok hfs _, make_info_ok hfs _⟩
  · intro base_dir p hp
    cases hrd : fs.readDir base_dir with
    | none => simp [list_projects, hrd] at hp
    | some entries =>
      simp only [list_projects, hrd] at hp
      obtain ⟨a, ha, hfa⟩ := List.mem_filterMap.mp hp
      obtain ⟨-, -, -, -, -, hcf⟩ := projectEntry_some_shape hfa
      rw [hcf]
      exact ⟨make_info_ok hfs _, make_info_ok hfs _, make_info_ok hfs _,
        make_info_ok hfs _, make_info_ok hfs _, make_info_ok hfs _,
        make_info_ok hfs _, make_info_ok hfs _, make_info_ok hfs _,
        make_info_ok hfs _⟩

/-- C10: when the recursive scan visits a directory that contains both
CLAUDE.md and CLAUDE.local.md, the two emitted entries are adjacent in
the output, the CLAUDE.md entry immediately preceding the
CLAUDE.local.md entry of that directory. -/
theorem claim10_local_adjacent (fs : FS) (project_path : Path)
    (max_depth : Option Nat) (comps : List String)
    (hreach : Reaches fs (max_depth.getD 5) project_path 0 comps)
    (hc : fs.pathExists ((project_path ++ comps).join "CLAUDE.md") = true)
    (hl : fs.pathExists ((project_path ++ comps).join "CLAUDE.local.md") = true) :
    ∃ pre post, discover_subdirectory_claude_md fs project_path max_depth =
      pre ++
        [{ relative_path := Path.render comps
           full_path := ((project_path ++ comps).join "CLAUDE.md").render
           exists_ := true },
         { relative_path := Path.render comps ++ " (local)"
           full_path := ((project_path ++ comps).join "CLAUDE.local.md").render
           exists_ := true }] ++ post := by
  obtain ⟨pre, post, heq⟩ := reaches_block project_path hreach
  have hblock := childEntries_both fs project_path (project_path ++ comps) hc hl
  rw [stripBase_append] at hblock
  refine ⟨pre, post, ?_⟩
  simp only [discover_subdirectory_claude_md, heq, hblock]

theorem fsW_dir_exists :
    ∀ p : Path, fsW.isDir p = true → fsW.pathExists p = true := by
  intro p h
  have h' : p ∈ [
      (["b"] : Path), ["b", "proj1"], ["b", "plain"],
      ["proj"], ["proj", "src"], ["proj", "src", "billing"],
      ["proj", "node_modules"], ["proj", "node_modules", "x"],
      ["d"], ["d", "A"]] := by simpa [fsW] using h
  simp only [List.mem_cons, List.not_mem_nil, or_false] at h'
  rcases h' with h' | h' | h' | h' | h' | h' | h' | h' | h' | h' <;>
    subst h' <;> decide

theorem fsW_reaches_billing : Reaches fsW 5 ["proj"] 0 ["src", "billing"] :=
  Reaches.step (by omega)
    (show fsW.readDir ["proj"] = some ["src", "node_modules"] by decide)
    (by decide) (by decide) (by decide) (by decide)
    (Reaches.child (by omega)
      (show fsW.readDir ["proj", "src"] = some ["billing"] by decide)
      (by decide) (by decide) (by decide) (by decide))

theorem claim1_witness :
    ((∃ p ∈ list_projects fsW ["b"], p.name = "proj1") ↔
      (fsW.pathExists ((Path.join ["b"] "proj1").join "CLAUDE.md") ||
       fsW.pathExists (((Path.join ["b"] "proj1").join ".claude").join "CLAUDE.md") ||
       fsW.pathExists ((Path.join ["b"] "proj1").join ".git") ||
       fsW.pathExists ((Path.join ["b"] "proj1").join "package.json") ||
       fsW.pathExists ((Path.join ["b"] "proj1").join "tsconfig.json") ||
       fsW.pathExists ((Path.join ["b"] "proj1").join "pyproject.toml") ||
       fsW.pathExists ((Path.join ["b"] "proj1").join "go.mod") ||
       fsW.pathExists ((Path.join ["b"] "proj1").join "Cargo.toml")) = true) ∧
    (∀ p ∈ list_projects fsW ["b"], p.name = "proj1" →
      p.has_claude_md = (fsW.pathExists ((Path.join ["b"] "proj1").join "CLAUDE.md") ||
        fsW.pathExists (((Path.join ["b"] "proj1").join ".claude").join "CLAUDE.md"))) :=
  claim1_project_qualification fsW ["b"] ["proj1", "plain", "noise.txt"] "proj1"
    (by decide) (by decide) (by decide)

theorem claim2_witness :
    recurse fsW ["q"] ["q"] 3 2 = [] ∧
    discover_subdirectory_claude_md fsW ["proj"] (some 0) =
      oneLevel fsW ["proj"] ["proj"] :=
  ⟨(claim2_depth_boundary fsW ["q"]).1 ["q"] 3 2 (by omega),
   (claim2_depth_boundary fsW ["proj"]).2.2⟩

theorem claim3_witness :
    ∃ comps : List String, comps ≠ [] ∧
      (∀ c ∈ comps, startsWithChar c '.' = false ∧ c ∉ excludedDirs) ∧
      (({ relative_path := "src", full_path := "proj/src/CLAUDE.md",
          exists_ := true : SubdirClaudeMd }).full_path =
        (Path.join (["proj"] ++ comps) "CLAUDE.md").render ∨
       ({ relative_path := "src", full_path := "proj/src/CLAUDE.md",
          exists_ := true : SubdirClaudeMd }).full_path =
        (Path.join (["proj"] ++ comps) "CLAUDE.local.md").render) :=
  claim3_excluded_never_reported fsW ["proj"] none
    { relative_path := "src", full_path := "proj/src/CLAUDE.md", exists_ := true }
    (by
      simp only [discover_subdirectory_claude_md, Option.getD_none]
      rw [← recurseFuel_eq_recurse fsW ["proj"] 6 ["proj"] 0 5 (by omega)]
      decide)

theorem claim4_witness :
    ∃ (entries : List String) (name : String),
      fsW.readDir ["b"] = some entries ∧ name ∈ entries ∧
      projW.name = name ∧ projW.path = (Path.join ["b"] name).render ∧
      projW.has_claude_md = (fsW.pathExists ((Path.join ["b"] name).join "CLAUDE.md") ||
        fsW.pathExists (((Path.join ["b"] name).join ".claude").join "CLAUDE.md")) :=
  claim4_has_claude_md fsW ["b"] projW (by decide)

theorem claim5_witness :
    ({ relative_path := Path.render ["src", "billing"]
       full_path := (Path.join (["proj"] ++ ["src", "billing"]) "CLAUDE.md").render
       exists_ := true : SubdirClaudeMd } ∈
        discover_subdirectory_claude_md fsW ["proj"] none) ∧
    ({ relative_path := Path.render ["src", "billing"] ++ " (local)"
       full_path := (Path.join (["proj"] ++ ["src", "billing"]) "CLAUDE.local.md").render
       exists_ := true : SubdirClaudeMd } ∈
        discover_subdirectory_claude_md fsW ["proj"] none) :=
  claim5_both_entries fsW ["proj"] none ["src", "billing"] fsW_reaches_billing
    (by decide) (by decide)

theorem claim6_witness : list_projects fsW ["missing"] = [] :=
  claim6_unreadable_base_empty fsW ["missing"] (by decide)

theorem claim7_witness :
    ∃ l, list_directory fsW ["d"] = Except.ok l ∧
      l.Pairwise (fun a b =>
        (a.is_dir = true ∧ b.is_dir = false) ∨
        (a.is_dir = b.is_dir ∧
          strLE (strToLower a.name) (strToLower b.name) = true)) ∧
      l.Perm ((["b.txt", "A", "a.txt"] : List String).map (fun name =>
        { name := name
          path := (Path.join ["d"] name).render
          is_dir := fsW.isDir (Path.join ["d"] name) : DirectoryEntry })) :=
  claim7_sort_contract fsW ["d"] ["b.txt", "A", "a.txt"] (by decide)

theorem claim8_witness :
    recurse fsW ["proj"] ["x"] 7 5 = [] ∧
    recurseFuel fsW ["proj"] 6 ["proj"] 0 5 =
      discover_subdirectory_claude_md fsW ["proj"] (some 5) :=
  ⟨(claim8_termination fsW ["proj"] 5).1 ["x"] 7 (by omega),
   (claim8_termination fsW ["proj"] 5).2 6 (by omega)⟩

theorem claim9_witness :
    infoOk (get_path_info fsW ["d"]) ∧ infoOk (get_path_info fsW ["nope"]) :=
  ⟨(claim9_is_dir_implies_exists fsW fsW_dir_exists).1 ["d"],
   (claim9_is_dir_implies_exists fsW fsW_dir_exists).1 ["nope"]⟩

theorem claim10_witness :
    ∃ pre post, discover_subdirectory_claude_md fsW ["proj"] none =
      pre ++
        [{ relative_path := Path.render ["src", "billing"]
           full_path := (Path.join (["proj"] ++ ["src", "billing"]) "CLAUDE.md").render
           exists_ := true },
         { relative_path := Path.render ["src", "billing"] ++ " (local)"
           full_path := (Path.join (["proj"] ++ ["src", "billing"]) "CLAUDE.local.md").render
           exists_ := true }] ++ post :=
  claim10_local_adjacent fsW ["proj"] none ["src", "billing"] fsW_reaches_billing
    (by decide) (by decide)

end ClaudeConfig
